import Mathlib

/-!
Verification of the snoot message-orchestration core against its source
(`src/gemini.ts`, `src/claude.ts`, `src/context.ts`, `src/proxy.ts`,
`src/session.ts`).  The TypeScript code is shallowly embedded: each relevant
function is translated into a pure Lean function over explicit state, with
external effects (process spawns, timers, messenger sends, waiter
resolutions) reified as event lists, and fallible external calls modelled as
`Except` / `Option` valued oracles.
-/

namespace Snoot

/-! ## JavaScript string primitives

Models of the JS string operations the source relies on, defined over
`String.data` (`List Char`, i.e. code points). -/

/-- Models the JavaScript whitespace class used by `String.prototype.trim`
(ASCII whitespace plus NBSP, line/paragraph separators and BOM; none of the
printable ASCII characters the source searches for are whitespace). -/
def jsIsWhitespace (c : Char) : Bool :=
  c = ' ' || c = '\t' || c = '\n' || c = '\r' ||
  c = '\x0b' || c = '\x0c' || c = ' ' ||
  c = ' ' || c = ' ' || c = '﻿'

/-- Character-list prefix test (structural model of sequence prefixing). -/
def seqPrefixOf : List Char → List Char → Bool
  | [], _ => true
  | _ :: _, [] => false
  | a :: n, b :: h => a = b && seqPrefixOf n h

/-- Character-list containment: `needle` occurs contiguously in `hay`. -/
def containsSeq : List Char → List Char → Bool
  | n, [] => n.isEmpty
  | n, b :: h => seqPrefixOf n (b :: h) || containsSeq n h

/-- Models JavaScript `s.includes(sub)`. -/
def jsIncludes (s sub : String) : Bool :=
  containsSeq sub.data s.data

/-- Models JavaScript `s.trim()`: strips leading and trailing whitespace. -/
def jsTrim (s : String) : String :=
  String.mk (((s.data.dropWhile jsIsWhitespace).reverse.dropWhile jsIsWhitespace).reverse)

theorem seqPrefixOf_subset {n h : List Char} (hp : seqPrefixOf n h = true) :
    ∀ c ∈ n, c ∈ h := by
  induction n generalizing h with
  | nil => intro c hc; cases hc
  | cons a n ih =>
    cases h with
    | nil => simp [seqPrefixOf] at hp
    | cons b t =>
      simp only [seqPrefixOf, Bool.and_eq_true, decide_eq_true_eq] at hp
      intro c hc
      rcases List.mem_cons.mp hc with rfl | hc
      · exact hp.1 ▸ List.mem_cons_self _ _
      · exact List.mem_cons_of_mem _ (ih hp.2 c hc)

theorem containsSeq_subset {n h : List Char} (hc : containsSeq n h = true) :
    ∀ c ∈ n, c ∈ h := by
  induction h with
  | nil =>
    intro c hcn
    simp only [containsSeq, List.isEmpty_iff] at hc
    subst hc; cases hcn
  | cons b t ih =>
    simp only [containsSeq, Bool.or_eq_true] at hc
    intro c hcn
    rcases hc with hp | hrec
    · exact seqPrefixOf_subset hp c hcn
    · exact List.mem_cons_of_mem _ (ih hrec c hcn)

theorem jsTrim_ne_empty_of_mem {s : String} {c : Char}
    (hmem : c ∈ s.data) (hw : jsIsWhitespace c = false) : jsTrim s ≠ "" := by
  intro hemp
  have hdata : (((s.data.dropWhile jsIsWhitespace).reverse.dropWhile jsIsWhitespace).reverse) = ([] : List Char) := by
    have := congrArg String.data hemp
    simpa [jsTrim] using this
  have hnil : (s.data.dropWhile jsIsWhitespace).reverse.dropWhile jsIsWhitespace = [] := by
    have := congrArg List.reverse hdata
    simpa using this
  have hall : ∀ x ∈ (s.data.dropWhile jsIsWhitespace).reverse, jsIsWhitespace x = true :=
    List.dropWhile_eq_nil_iff.mp hnil
  -- c survives the front trim, since the dropped front prefix is all whitespace
  have hc1 : c ∈ s.data.dropWhile jsIsWhitespace := by
    have hsplit := List.takeWhile_append_dropWhile jsIsWhitespace s.data
    have : c ∈ s.data.takeWhile jsIsWhitespace ++ s.data.dropWhile jsIsWhitespace := by
      rw [hsplit]; exact hmem
    rcases List.mem_append.mp this with htake | hdrop
    · exact absurd (List.mem_takeWhile_imp htake) (by simp [hw])
    · exact hdrop
  have := hall c (List.mem_reverse.mpr hc1)
  simp [hw] at this

/-! ## Context store (`src/context.ts`)

`compact` (context.ts:134-167) works on the in-memory window and rolling
summary; the append-only archive is represented as a state component that
`compact` never touches (its code contains no archive write).  The external
summarization subprocess (`runCompaction`, context.ts:185-221) is an oracle
`String → Except String String`; a thrown error is `Except.error`, and the
oracle's `ok` value stands for the subprocess output after `.trim()`. -/

/-- Models the `MessagePair` record of `types.ts` (the optional `pinned?`
field is a `Bool`, with absence represented by `false`, matching the JS
truthiness tests `p.pinned` / `!p.pinned`). -/
structure MessagePair where
  id : Int
  user : String
  assistant : String
  timestamp : Int
  pinned : Bool
deriving DecidableEq

/-- Mutable state of the context store: recent window, rolling summary, and
the append-only archive. -/
structure CtxState where
  recent : List MessagePair
  summary : String
  archive : List MessagePair
deriving DecidableEq

/-- Ordering on pairs used by the compaction rebuild `sort((a, b) => a.id - b.id)`. -/
def pairLe (a b : MessagePair) : Prop := a.id ≤ b.id

instance : DecidableRel pairLe := fun a b => inferInstanceAs (Decidable (a.id ≤ b.id))

instance : IsTotal MessagePair pairLe := ⟨fun a b => Int.le_total a.id b.id⟩

instance : IsTrans MessagePair pairLe := ⟨fun _ _ _ hab hbc => le_trans hab hbc⟩

/-- The pinned pairs of the window (`recent.filter(p => p.pinned)`, context.ts:138). -/
def pinnedOf (st : CtxState) : List MessagePair := st.recent.filter (fun p => p.pinned)

/-- The unpinned pairs of the window (`recent.filter(p => !p.pinned)`, context.ts:139). -/
def unpinnedOf (st : CtxState) : List MessagePair := st.recent.filter (fun p => !p.pinned)

/-- Number of unpinned pairs evicted on a compaction pass:
`unpinned.length - targetUnpinned` with `targetUnpinned = windowSize - pinned.length`
(context.ts:142-146).  Stated with natural subtraction; it is only consumed on
the branch where `0 < windowSize - pinnedCount`, where it agrees with the JS
number arithmetic. -/
def cutCount (ws : Nat) (st : CtxState) : Nat :=
  (unpinnedOf st).length - (ws - (pinnedOf st).length)

/-- The `toCompact` slice: oldest `cutCount` unpinned pairs (context.ts:145). -/
def evictedOf (ws : Nat) (st : CtxState) : List MessagePair :=
  (unpinnedOf st).take (cutCount ws st)

/-- The `toKeep` slice: remaining unpinned pairs (context.ts:146). -/
def keptOf (ws : Nat) (st : CtxState) : List MessagePair :=
  (unpinnedOf st).drop (cutCount ws st)

/-- Models `formatForCompaction` (context.ts:169-183). -/
def formatForCompaction (pairs : List MessagePair) (currentSummary : String) : String :=
  let head := if currentSummary ≠ "" then
      "<current_summary>\n" ++ currentSummary ++ "\n</current_summary>\n\n"
    else ""
  let body := pairs.foldl
    (fun acc p => acc ++ "User: " ++ p.user ++ "\nAssistant: " ++ p.assistant ++ "\n\n") ""
  head ++ "<messages_to_compact>\n" ++ body ++ "</messages_to_compact>"

/-- Models `compact` (context.ts:134-167).  The guard
`targetUnpinned <= 0 || unpinned.length <= targetUnpinned` is computed in
`Int`, matching JS number arithmetic; the `try`/`catch` around the
summarization call is embedded as the `Except` match, so a summarizer error
leaves the state untouched and never escapes.  The window rebuild
`[...pinned, ...toKeep].sort((a, b) => a.id - b.id)` is a stable ascending
sort by id, modelled by `List.insertionSort pairLe` (which is stable). -/
def compact (ws : Nat) (summarize : String → Except String String) (st : CtxState) : CtxState :=
  if st.recent.length ≤ ws then st
  else if (ws : Int) - (pinnedOf st).length ≤ 0 ∨
          ((unpinnedOf st).length : Int) ≤ (ws : Int) - (pinnedOf st).length then st
  else
    match summarize (formatForCompaction (evictedOf ws st) st.summary) with
    | .error _ => st
    | .ok newSummary =>
      { st with summary := newSummary,
                recent := List.insertionSort pairLe (pinnedOf st ++ keptOf ws st) }

/-- C4: For every call to compact() in which the recent window length is at
most windowSize, or targetUnpinned = windowSize − pinnedCount is ≤ 0, or the
number of unpinned pairs is at most targetUnpinned, the call is a no-op: the
recent window, the rolling summary, and the archive are all unchanged
afterwards. -/
theorem compact_noop (ws : Nat) (f : String → Except String String) (st : CtxState)
    (h : st.recent.length ≤ ws ∨
         (ws : Int) - (pinnedOf st).length ≤ 0 ∨
         ((unpinnedOf st).length : Int) ≤ (ws : Int) - (pinnedOf st).length) :
    compact ws f st = st := by
  unfold compact
  rcases h with h1 | h2
  · rw [if_pos h1]
  · by_cases h1 : st.recent.length ≤ ws
    · rw [if_pos h1]
    · rw [if_neg h1, if_pos h2]

/-- Witness for `compact_noop` at a concrete window already below target. -/
theorem compact_noop_witness :
    ({ recent := [⟨1, "u", "a", 0, false⟩], summary := "s", archive := [] } : CtxState).recent.length ≤ 5 ∧
    compact 5 (fun _ => .ok "new") { recent := [⟨1, "u", "a", 0, false⟩], summary := "s", archive := [] } =
      { recent := [⟨1, "u", "a", 0, false⟩], summary := "s", archive := [] } :=
  ⟨by decide,
   compact_noop 5 (fun _ => .ok "new") _ (Or.inl (by decide))⟩

/-- C5: For every call to compact() in which the summarization call throws,
compact() leaves both the recent window and the rolling summary unchanged
(compaction is all-or-nothing), and the error does not propagate to the
caller (the embedded catch makes `compact` total, returning the unchanged
state). -/
theorem compact_summarize_error (ws : Nat) (f : String → Except String String) (st : CtxState)
    (hf : ∀ input, ∃ e, f input = .error e) :
    compact ws f st = st := by
  unfold compact
  by_cases h1 : st.recent.length ≤ ws
  · rw [if_pos h1]
  · rw [if_neg h1]
    by_cases h2 : (ws : Int) - (pinnedOf st).length ≤ 0 ∨
        ((unpinnedOf st).length : Int) ≤ (ws : Int) - (pinnedOf st).length
    · rw [if_pos h2]
    · rw [if_neg h2]
      obtain ⟨e, he⟩ := hf (formatForCompaction (evictedOf ws st) st.summary)
      rw [he]

/-- Witness for `compact_summarize_error`: a window over target whose
summarizer always throws is left fully unchanged. -/
theorem compact_summarize_error_witness :
    (∀ input, ∃ e, (fun (_ : String) => (Except.error "spawn failed" : Except String String)) input = .error e) ∧
    compact 1 (fun _ => .error "spawn failed")
      { recent := [⟨1, "u1", "a1", 0, false⟩, ⟨2, "u2", "a2", 0, false⟩], summary := "s", archive := [] } =
      { recent := [⟨1, "u1", "a1", 0, false⟩, ⟨2, "u2", "a2", 0, false⟩], summary := "s", archive := [] } :=
  ⟨fun _ => ⟨"spawn failed", rfl⟩,
   compact_summarize_error 1 _ _ (fun _ => ⟨"spawn failed", rfl⟩)⟩

/-- C2: For every compaction run that replaces the rolling summary, every
pinned pair that was in the window before compact() is still present,
unmodified, afterwards; the pairs removed are exactly the oldest
(unpinnedCount − targetUnpinned) unpinned pairs; and the resulting window is
the pinned pairs together with the kept unpinned pairs, sorted by id
ascending. -/
theorem compact_success_spec (ws : Nat) (f : String → Except String String) (st : CtxState)
    (newSum : String)
    (hlen : ws < st.recent.length)
    (hpin : (pinnedOf st).length < ws)
    (hcut : ws - (pinnedOf st).length < (unpinnedOf st).length)
    (hok : f (formatForCompaction (evictedOf ws st) st.summary) = .ok newSum) :
    (∀ p ∈ st.recent, p.pinned = true → p ∈ (compact ws f st).recent) ∧
    List.Sorted pairLe (compact ws f st).recent ∧
    List.Perm (compact ws f st).recent (pinnedOf st ++ keptOf ws st) ∧
    List.Perm ((compact ws f st).recent ++ evictedOf ws st) st.recent ∧
    (compact ws f st).summary = newSum ∧
    (compact ws f st).archive = st.archive := by
  have h1 : ¬ st.recent.length ≤ ws := by omega
  have h2 : ¬ ((ws : Int) - (pinnedOf st).length ≤ 0 ∨
      ((unpinnedOf st).length : Int) ≤ (ws : Int) - (pinnedOf st).length) := by
    push_neg
    constructor <;> [skip; skip] <;> omega
  have hres : compact ws f st =
      { st with summary := newSum,
                recent := List.insertionSort pairLe (pinnedOf st ++ keptOf ws st) } := by
    unfold compact
    rw [if_neg h1, if_neg h2, hok]
  rw [hres]
  have hperm : List.Perm (List.insertionSort pairLe (pinnedOf st ++ keptOf ws st))
      (pinnedOf st ++ keptOf ws st) := List.perm_insertionSort pairLe _
  refine ⟨?_, ?_, hperm, ?_, rfl, rfl⟩
  · intro p hp hpin'
    have hmem : p ∈ pinnedOf st := List.mem_filter.mpr ⟨hp, by simp [hpin']⟩
    exact hperm.mem_iff.mpr (List.mem_append.mpr (Or.inl hmem))
  · exact List.sorted_insertionSort pairLe _
  · refine List.Perm.trans (hperm.append_right _) ?_
    rw [List.append_assoc]
    refine List.Perm.trans (List.Perm.append_left _ List.perm_append_comm) ?_
    rw [show evictedOf ws st ++ keptOf ws st = unpinnedOf st from
      List.take_append_drop _ _]
    exact List.filter_append_perm _ _

/-- Witness for `compact_success_spec`: window of four pairs (one pinned),
target 2; the two oldest unpinned pairs are evicted, the pin survives, the
summary is replaced. -/
theorem compact_success_spec_witness :
    (2 : Nat) < ({ recent := [⟨1, "u1", "a1", 0, true⟩, ⟨2, "u2", "a2", 0, false⟩,
                             ⟨3, "u3", "a3", 0, false⟩, ⟨4, "u4", "a4", 0, false⟩],
                   summary := "", archive := [] } : CtxState).recent.length ∧
    (∀ p ∈ ({ recent := [⟨1, "u1", "a1", 0, true⟩, ⟨2, "u2", "a2", 0, false⟩,
                         ⟨3, "u3", "a3", 0, false⟩, ⟨4, "u4", "a4", 0, false⟩],
              summary := "", archive := [] } : CtxState).recent, p.pinned = true →
      p ∈ (compact 2 (fun _ => .ok "S")
            { recent := [⟨1, "u1", "a1", 0, true⟩, ⟨2, "u2", "a2", 0, false⟩,
                         ⟨3, "u3", "a3", 0, false⟩, ⟨4, "u4", "a4", 0, false⟩],
              summary := "", archive := [] }).recent) ∧
    (compact 2 (fun _ => .ok "S")
      { recent := [⟨1, "u1", "a1", 0, true⟩, ⟨2, "u2", "a2", 0, false⟩,
                   ⟨3, "u3", "a3", 0, false⟩, ⟨4, "u4", "a4", 0, false⟩],
        summary := "", archive := [] }).summary = "S" := by
  have h := compact_success_spec 2 (fun _ => .ok "S")
    { recent := [⟨1, "u1", "a1", 0, true⟩, ⟨2, "u2", "a2", 0, false⟩,
                 ⟨3, "u3", "a3", 0, false⟩, ⟨4, "u4", "a4", 0, false⟩],
      summary := "", archive := [] } "S"
    (by decide) (by decide) (by decide) rfl
  exact ⟨by decide, h.1, h.2.2.2.2.1⟩

/-! ## Gemini backend supervisor (`src/gemini.ts`)

The `result` case of `handleOutputMessage` (gemini.ts:248-304) is the
terminal-event handler: it consumes the accumulated response text, either
schedules a rate-limit retry, schedules an API-error retry, or resets the
retry counters and resolves the oldest pending `waitForResponse()` waiter.
Timers, callbacks and resolutions are reified as an effect list; the FIFO of
pending resolvers is modelled by its length (`waiters`), with the resolved
text carried on the `resolveWaiter` effect. -/

/-- Mutable supervisor state relevant to the terminal-result handler
(gemini.ts:27-35). -/
structure GeminiMgr where
  accumulatedText : String
  rateLimitDetected : Bool
  rateLimitRetryCount : Nat
  apiErrorRetryCount : Nat
  pendingRetry : Bool
  lastUserMessage : String
  waiters : Nat
deriving DecidableEq

/-- External effects of the terminal-result handler: activity lines, retry
notifications (delays in seconds), scheduled respawns (delays in
milliseconds) and waiter resolutions. -/
inductive GemEffect where
  | activity (line : String)
  | rateLimitNotify (retryInSec : Nat) (attempt : Nat)
  | apiErrorNotify (retryInSec : Nat) (attempt : Nat) (maxAttempts : Nat)
  | scheduleRespawn (delayMs : Nat) (prompt : String)
  | resolveWaiter (text : String)
deriving DecidableEq

/-- Models the `case "result"` branch of `handleOutputMessage`
(gemini.ts:248-304).  JS truthiness of strings is string non-emptiness;
`RATE_LIMIT_RETRY_DELAY = 30_000`, `MAX_RATE_LIMIT_RETRIES = 5`,
`API_ERROR_RETRY_DELAYS = [30_000, 60_000]` (gemini.ts:4-6).
`responseResolvers.shift()` resolves the first waiter when one exists. -/
def handleResultEvent (s : GeminiMgr) : GeminiMgr × List GemEffect :=
  if s.accumulatedText = "" ∧ s.rateLimitDetected = true ∧
     s.rateLimitRetryCount < 5 ∧ s.lastUserMessage ≠ "" then
    ({ s with accumulatedText := "", rateLimitRetryCount := s.rateLimitRetryCount + 1,
              rateLimitDetected := false, pendingRetry := true },
     [GemEffect.rateLimitNotify 30 (s.rateLimitRetryCount + 1),
      GemEffect.scheduleRespawn 30000 s.lastUserMessage])
  else if (jsIncludes s.accumulatedText "500" ||
           jsIncludes s.accumulatedText "Internal server error" ||
           jsIncludes s.accumulatedText "INTERNAL") = true ∧
          jsTrim s.accumulatedText = "" ∧ s.lastUserMessage ≠ "" ∧
          s.apiErrorRetryCount < 2 then
    ({ s with accumulatedText := "", apiErrorRetryCount := s.apiErrorRetryCount + 1,
              pendingRetry := true },
     [GemEffect.apiErrorNotify ((if s.apiErrorRetryCount = 0 then 30000 else 60000) / 1000)
        (s.apiErrorRetryCount + 1) 2,
      GemEffect.scheduleRespawn (if s.apiErrorRetryCount = 0 then 30000 else 60000)
        s.lastUserMessage])
  else
    ({ s with accumulatedText := "", rateLimitDetected := false, rateLimitRetryCount := 0,
              apiErrorRetryCount := 0, waiters := s.waiters - 1 },
     GemEffect.activity ("✅ Done (" ++ toString s.accumulatedText.length ++ " chars)") ::
       (if 0 < s.waiters then [GemEffect.resolveWaiter s.accumulatedText] else []))

/-- Selects waiter resolutions from an effect list. -/
def isResolveEffect : GemEffect → Bool
  | .resolveWaiter _ => true
  | _ => false

/-- Selects scheduled respawns from an effect list. -/
def isScheduleEffect : GemEffect → Bool
  | .scheduleRespawn _ _ => true
  | _ => false

/-- Selects API-error retry notifications from an effect list. -/
def isApiNotifyEffect : GemEffect → Bool
  | .apiErrorNotify _ _ _ => true
  | _ => false

/-- The API-error retry guard of gemini.ts:276 is unsatisfiable: a response
text containing one of the 500/internal markers has a non-whitespace
character, so its trim cannot be empty. -/
theorem apiError_guard_unsat (r : String)
    (hm : (jsIncludes r "500" || jsIncludes r "Internal server error" ||
           jsIncludes r "INTERNAL") = true)
    (ht : jsTrim r = "") : False := by
  simp only [Bool.or_eq_true, jsIncludes] at hm
  rcases hm with (h5 | hI) | hI2
  · exact jsTrim_ne_empty_of_mem (containsSeq_subset h5 '5' (by decide)) (by decide) ht
  · exact jsTrim_ne_empty_of_mem (containsSeq_subset hI 'I' (by decide)) (by decide) ht
  · exact jsTrim_ne_empty_of_mem (containsSeq_subset hI2 'I' (by decide)) (by decide) ht

/-- Supervisor state after five rate-limit retries have been used, with the
sticky flag set, an empty accumulated response, a last-sent prompt, and one
pending waiter. -/
def rateLimitExhaustedState : GeminiMgr :=
  { accumulatedText := "", rateLimitDetected := true, rateLimitRetryCount := 5,
    apiErrorRetryCount := 0, pendingRetry := false, lastUserMessage := "hi", waiters := 1 }

/-- C1 counterexample: after the 5 rate-limit retries are exhausted, the next
empty rate-limited terminal result resolves the pending waiter with the empty
string — not with any fixed plain-text failure notice — and schedules no
retry.  The only resolution effect carries `""`. -/
theorem gemini_rateLimit_exhausted_counterexample :
    (handleResultEvent rateLimitExhaustedState).2.filter isResolveEffect =
      [GemEffect.resolveWaiter ""] ∧
    (handleResultEvent rateLimitExhaustedState).2.filter isScheduleEffect = [] := by
  decide

/-- C1 (amended): with empty accumulated text, the sticky flag set, fewer
than 5 retries used and a last-sent prompt, the handler increments the retry
count, clears the flag, notifies onRateLimit with a 30-second delay and
schedules a respawn with the same prompt after 30 seconds.  Once 5 retries
are used, the next such terminal result resolves the pending waiter with the
empty accumulated text (not a failure notice), schedules nothing, and resets
the counter to 0.  Any terminal result with non-empty accumulated text
resolves the waiter with that text and resets both retry counters to 0. -/
theorem gemini_rateLimit_policy (s : GeminiMgr) :
    (s.accumulatedText = "" → s.rateLimitDetected = true → s.rateLimitRetryCount < 5 →
      s.lastUserMessage ≠ "" →
      handleResultEvent s =
        ({ s with accumulatedText := "", rateLimitRetryCount := s.rateLimitRetryCount + 1,
                  rateLimitDetected := false, pendingRetry := true },
         [GemEffect.rateLimitNotify 30 (s.rateLimitRetryCount + 1),
          GemEffect.scheduleRespawn 30000 s.lastUserMessage])) ∧
    (s.accumulatedText = "" → s.rateLimitDetected = true → s.rateLimitRetryCount = 5 →
      s.lastUserMessage ≠ "" → 0 < s.waiters →
      (handleResultEvent s).2.filter isResolveEffect = [GemEffect.resolveWaiter ""] ∧
      (handleResultEvent s).2.filter isScheduleEffect = [] ∧
      (handleResultEvent s).1.rateLimitRetryCount = 0) ∧
    (s.accumulatedText ≠ "" → 0 < s.waiters →
      (handleResultEvent s).2.filter isResolveEffect =
        [GemEffect.resolveWaiter s.accumulatedText] ∧
      (handleResultEvent s).1.rateLimitRetryCount = 0 ∧
      (handleResultEvent s).1.apiErrorRetryCount = 0) := by
  refine ⟨?_, ?_, ?_⟩
  · intro h1 h2 h3 h4
    unfold handleResultEvent
    rw [if_pos ⟨h1, h2, h3, h4⟩]
  · intro h1 h2 h3 h4 hw
    unfold handleResultEvent
    rw [if_neg (fun hc => absurd hc.2.2.1 (by omega))]
    rw [if_neg (fun hc => by rw [h1] at hc; exact absurd hc.1 (by decide))]
    rw [if_pos hw, h1]
    exact ⟨rfl, rfl, rfl⟩
  · intro h1 hw
    unfold handleResultEvent
    rw [if_neg (fun hc => h1 hc.1)]
    rw [if_neg (fun hc => apiError_guard_unsat s.accumulatedText hc.1 hc.2.1)]
    rw [if_pos hw]
    exact ⟨rfl, rfl, rfl⟩

/-- Witness for `gemini_rateLimit_policy` at three concrete supervisor
states: a first retry, the exhausted sixth result, and a plain success. -/
theorem gemini_rateLimit_policy_witness :
    handleResultEvent
        { accumulatedText := "", rateLimitDetected := true, rateLimitRetryCount := 0,
          apiErrorRetryCount := 0, pendingRetry := false, lastUserMessage := "hi", waiters := 1 } =
      ({ accumulatedText := "", rateLimitDetected := false, rateLimitRetryCount := 1,
         apiErrorRetryCount := 0, pendingRetry := true, lastUserMessage := "hi", waiters := 1 },
       [GemEffect.rateLimitNotify 30 1, GemEffect.scheduleRespawn 30000 "hi"]) ∧
    (handleResultEvent rateLimitExhaustedState).2.filter isResolveEffect =
      [GemEffect.resolveWaiter ""] ∧
    (handleResultEvent
        { accumulatedText := "ok", rateLimitDetected := false, rateLimitRetryCount := 3,
          apiErrorRetryCount := 1, pendingRetry := false, lastUserMessage := "hi",
          waiters := 1 }).2.filter isResolveEffect = [GemEffect.resolveWaiter "ok"] := by
  refine ⟨?_, ?_, ?_⟩
  · exact (gemini_rateLimit_policy _).1 rfl rfl (by decide) (by decide)
  · exact ((gemini_rateLimit_policy rateLimitExhaustedState).2.1 rfl rfl rfl (by decide)
      (by decide)).1
  · exact ((gemini_rateLimit_policy _).2.2 (by decide) (by decide)).1

/-- Supervisor state holding a terminal result whose response text contains a
500/internal-error marker, with no API-error retries used and a last-sent
prompt present. -/
def apiErrorMarkerState : GeminiMgr :=
  { accumulatedText := "Internal server error (500)", rateLimitDetected := false,
    rateLimitRetryCount := 0, apiErrorRetryCount := 0, pendingRetry := false,
    lastUserMessage := "hi", waiters := 1 }

/-- C6: the API-error retry branch of gemini.ts:276 never fires.  Its guard
conjoins "response text contains a 500/internal marker" with "response text
trims to empty", which is unsatisfiable, so no terminal result ever produces
an onApiError notification; at the concrete failing input the handler
instead resolves the waiter immediately with the error text and leaves the
API retry counter at 0. -/
theorem gemini_api_retry_never_fires :
    (∀ s : GeminiMgr, (handleResultEvent s).2.filter isApiNotifyEffect = []) ∧
    (handleResultEvent apiErrorMarkerState).2 =
      [GemEffect.activity "✅ Done (27 chars)",
       GemEffect.resolveWaiter "Internal server error (500)"] ∧
    (handleResultEvent apiErrorMarkerState).1.apiErrorRetryCount = 0 := by
  refine ⟨?_, by decide, by decide⟩
  intro s
  unfold handleResultEvent
  by_cases hR : s.accumulatedText = "" ∧ s.rateLimitDetected = true ∧
      s.rateLimitRetryCount < 5 ∧ s.lastUserMessage ≠ ""
  · rw [if_pos hR]; rfl
  · rw [if_neg hR]
    rw [if_neg (fun hc => apiError_guard_unsat s.accumulatedText hc.1 hc.2.1)]
    by_cases hw : 0 < s.waiters
    · rw [if_pos hw]; rfl
    · rw [if_neg hw]; rfl

/-! ## Message queue drain (`src/proxy.ts`)

`processQueue` (proxy.ts:336-371) drains the whole queue at the start of a
turn into one batch and hands that batch to a single `handleMessage` call,
which performs the turn's one backend invocation (`llm.send`, proxy.ts:485). -/

/-- Models the batching of drained messages (proxy.ts:347-349):
`messages.length === 1 ? messages[0] : messages.join("\n\n")`. -/
def batchMessages (messages : List String) : String :=
  match messages with
  | [m] => m
  | ms => String.intercalate "\n\n" ms

/-- Models one iteration of the `processQueue` drain loop (proxy.ts:340-356):
the inner loop shifts every queued message in arrival order into `messages`,
leaving the queue empty, and the batch is handed to one `handleMessage` call.
Returns the list of handed-off prompts and the remaining queue. -/
def drainQueue (queue : List String) : List String × List String :=
  if queue.isEmpty then ([], queue) else ([batchMessages queue], [])

/-- C3: For every sequence of N ≥ 1 chat messages sitting in the queue when a
queue drain starts, exactly one backend invocation is made for that drain,
and its prompt equals the N messages joined with a blank line in arrival
order. -/
theorem queue_drain_one_batched_invocation (queue : List String) (h : queue ≠ []) :
    drainQueue queue = ([String.intercalate "\n\n" queue], []) := by
  cases queue with
  | nil => exact absurd rfl h
  | cons a t =>
    cases t with
    | nil => rfl
    | cons b t2 => rfl

/-- Witness for `queue_drain_one_batched_invocation` on a three-message
queue. -/
theorem queue_drain_one_batched_invocation_witness :
    (["m1", "m2", "m3"] : List String) ≠ [] ∧
    drainQueue ["m1", "m2", "m3"] = (["m1\n\nm2\n\nm3"], []) :=
  ⟨by decide, queue_drain_one_batched_invocation ["m1", "m2", "m3"] (by decide)⟩

/-! ## Worker process lifecycle on `send` (`src/gemini.ts`, `src/claude.ts`)

Both managers' `send` functions are modelled against a process world that
records which worker pids are alive.  Kills, spawns and stdin writes are
reified as events, in program order. -/

/-- Process-level events emitted by a `send` call. -/
inductive ProcEvent where
  | killedProc (pid : Nat)
  | spawnedProc (pid : Nat) (argPrompt : Option String)
  | wroteStdin (pid : Nat) (content : String)
deriving DecidableEq

/-- The set of live worker processes, plus a fresh-pid counter. -/
structure ProcWorld where
  aliveList : List Nat
  nextPid : Nat
deriving DecidableEq

/-- Process-lifecycle state of the gemini manager (gemini.ts:16-35). -/
structure GeminiProcMgr where
  proc : Option Nat
  alive : Bool
  rateLimitRetryCount : Nat
  apiErrorRetryCount : Nat
  lastUserMessage : String
deriving DecidableEq

/-- Models the prompt assembly of gemini `send` (gemini.ts:337-345): the
optional system-prompt file content is prepended with a blank line; a missing
or unreadable file leaves the prompt as the bare text (the read error is
caught). -/
def geminiFullPrompt (text : String) (sysPromptContent : Option String) : String :=
  match sysPromptContent with
  | some sys => sys ++ "\n\n" ++ text
  | none => text

/-- Models gemini `send` (gemini.ts:325-351): reset the retry counters, kill
any leftover live process with SIGKILL, record the full prompt as the last
user message, and spawn a fresh worker with the prompt as argument
(`spawnProcess`, gemini.ts:93-115). -/
def geminiSend (m : GeminiProcMgr) (w : ProcWorld) (text : String)
    (sysPromptContent : Option String) : GeminiProcMgr × ProcWorld × List ProcEvent :=
  let m1 := { m with rateLimitRetryCount := 0, apiErrorRetryCount := 0 }
  let killed : GeminiProcMgr × ProcWorld × List ProcEvent :=
    match m1.proc, m1.alive with
    | some p, true =>
      ({ m1 with proc := none, alive := false },
       { w with aliveList := w.aliveList.erase p }, [ProcEvent.killedProc p])
    | _, _ => (m1, w, [])
  let m2 := killed.1
  let w2 := killed.2.1
  let fullPrompt := geminiFullPrompt text sysPromptContent
  ({ m2 with proc := some w2.nextPid, alive := true, lastUserMessage := fullPrompt },
   { aliveList := w2.nextPid :: w2.aliveList, nextPid := w2.nextPid + 1 },
   killed.2.2 ++ [ProcEvent.spawnedProc w2.nextPid (some fullPrompt)])

/-- Process-lifecycle state of the claude manager (claude.ts:5-6). -/
structure ClaudeProcMgr where
  proc : Option Nat
  alive : Bool
deriving DecidableEq

/-- Models the content assembly of claude `send` (claude.ts:210-212); the
stream-json user-message envelope around it is represented by the raw
content. -/
def claudeContent (text : String) (isInitial : Bool) (contextPrefix : Option String) : String :=
  match isInitial, contextPrefix with
  | true, some cp => cp ++ "\n\n---\n\n" ++ text
  | _, _ => text

/-- Models claude `send` (claude.ts:205-227): spawn a worker only when none
is alive, then write the user message to the live worker's stdin (a missing
handle is caught and logged, producing no write). -/
def claudeSend (m : ClaudeProcMgr) (w : ProcWorld) (text : String) (isInitial : Bool)
    (contextPrefix : Option String) : ClaudeProcMgr × ProcWorld × List ProcEvent :=
  let spawned : ClaudeProcMgr × ProcWorld × List ProcEvent :=
    if m.alive = false then
      ({ proc := some w.nextPid, alive := true },
       { aliveList := w.nextPid :: w.aliveList, nextPid := w.nextPid + 1 },
       [ProcEvent.spawnedProc w.nextPid none])
    else (m, w, [])
  let m1 := spawned.1
  let writeEvs : List ProcEvent :=
    match m1.proc with
    | some p => [ProcEvent.wroteStdin p (claudeContent text isInitial contextPrefix)]
    | none => []
  (m1, spawned.2.1, spawned.2.2 ++ writeEvs)

/-- Consistency of a manager handle with the process world: the live
processes are exactly the manager's live handle. -/
def oneLiveProc (proc : Option Nat) (alive : Bool) (w : ProcWorld) : Prop :=
  w.aliveList = match proc, alive with
    | some p, true => [p]
    | _, _ => []

/-- A claude manager with a live worker process (pid 7). -/
def claudeLiveState : ClaudeProcMgr := { proc := some 7, alive := true }

/-- The world matching `claudeLiveState`. -/
def claudeLiveWorld : ProcWorld := { aliveList := [7], nextPid := 8 }

/-- C8 counterexample: on the claude manager, `send` with a still-alive prior
worker neither terminates it nor spawns a new worker — it writes the prompt
to the existing process, which stays alive.  The still-alive prior worker is
therefore not "terminated before a new worker is spawned". -/
theorem claude_send_reuses_live_worker :
    (claudeSend claudeLiveState claudeLiveWorld "hi" false none).2.2 =
      [ProcEvent.wroteStdin 7 "hi"] ∧
    (claudeSend claudeLiveState claudeLiveWorld "hi" false none).1 = claudeLiveState ∧
    (claudeSend claudeLiveState claudeLiveWorld "hi" false none).2.1 = claudeLiveWorld := by
  decide

/-- C8 (amended): the gemini manager's send() kills any still-alive prior
process before spawning a new worker, so the drained world holds exactly the
fresh worker; the claude manager's send() spawns only when no process is
alive and otherwise reuses the live process unchanged; under either manager,
a world consistent with the manager's single handle stays consistent, so at
most one backend worker is alive at any time. -/
theorem send_single_worker_policy (gm : GeminiProcMgr) (cm : ClaudeProcMgr) (w : ProcWorld)
    (text : String) (sys : Option String) (isInitial : Bool) (cp : Option String) :
    (∀ p, gm.proc = some p → gm.alive = true →
      (geminiSend gm w text sys).2.2 =
        [ProcEvent.killedProc p,
         ProcEvent.spawnedProc w.nextPid (some (geminiFullPrompt text sys))]) ∧
    (oneLiveProc gm.proc gm.alive w →
      (geminiSend gm w text sys).2.1.aliveList = [w.nextPid] ∧
      oneLiveProc (geminiSend gm w text sys).1.proc (geminiSend gm w text sys).1.alive
        (geminiSend gm w text sys).2.1) ∧
    (¬ (∃ p, gm.proc = some p ∧ gm.alive = true) →
      (geminiSend gm w text sys).2.2 =
        [ProcEvent.spawnedProc w.nextPid (some (geminiFullPrompt text sys))]) ∧
    (cm.alive = true →
      (claudeSend cm w text isInitial cp).1 = cm ∧
      (claudeSend cm w text isInitial cp).2.1 = w) ∧
    (cm.alive = false →
      (claudeSend cm w text isInitial cp).2.2 =
        [ProcEvent.spawnedProc w.nextPid none,
         ProcEvent.wroteStdin w.nextPid (claudeContent text isInitial cp)] ∧
      (claudeSend cm w text isInitial cp).2.1.aliveList = w.nextPid :: w.aliveList) ∧
    (oneLiveProc cm.proc cm.alive w →
      oneLiveProc (claudeSend cm w text isInitial cp).1.proc
        (claudeSend cm w text isInitial cp).1.alive
        (claudeSend cm w text isInitial cp).2.1 ∧
      (claudeSend cm w text isInitial cp).2.1.aliveList.length ≤ 1) := by
  refine ⟨?_, ?_, ?_, ?_, ?_, ?_⟩
  · intro p hp ha
    simp [geminiSend, hp, ha]
  · intro hcons
    obtain ⟨gproc, galive, grl, gae, glum⟩ := gm
    cases gproc <;> cases galive <;>
      simp_all [geminiSend, oneLiveProc]
  · intro hno
    obtain ⟨gproc, galive, grl, gae, glum⟩ := gm
    cases gproc with
    | none => simp [geminiSend]
    | some p =>
      cases galive with
      | false => simp [geminiSend]
      | true => exact absurd ⟨p, rfl, rfl⟩ hno
  · intro ha
    simp [claudeSend, ha]
  · intro ha
    simp [claudeSend, ha]
  · intro hcons
    obtain ⟨cproc, calive⟩ := cm
    cases cproc <;> cases calive <;>
      simp_all [claudeSend, oneLiveProc]

/-- Witness for `send_single_worker_policy` at concrete states: a gemini
manager with live worker 3 (killed, then worker 4 spawned with the prompt),
and a dead claude manager (worker 9 spawned and written to). -/
theorem send_single_worker_policy_witness :
    (geminiSend { proc := some 3, alive := true, rateLimitRetryCount := 2,
                  apiErrorRetryCount := 1, lastUserMessage := "old" }
        { aliveList := [3], nextPid := 4 } "hi" none).2.2 =
      [ProcEvent.killedProc 3, ProcEvent.spawnedProc 4 (some "hi")] ∧
    (geminiSend { proc := some 3, alive := true, rateLimitRetryCount := 2,
                  apiErrorRetryCount := 1, lastUserMessage := "old" }
        { aliveList := [3], nextPid := 4 } "hi" none).2.1.aliveList = [4] ∧
    (claudeSend { proc := none, alive := false } { aliveList := [], nextPid := 9 }
        "yo" false none).2.2 =
      [ProcEvent.spawnedProc 9 none, ProcEvent.wroteStdin 9 "yo"] := by
  refine ⟨?_, ?_, ?_⟩
  · exact (send_single_worker_policy
      { proc := some 3, alive := true, rateLimitRetryCount := 2,
        apiErrorRetryCount := 1, lastUserMessage := "old" }
      { proc := none, alive := false } { aliveList := [3], nextPid := 4 }
      "hi" none false none).1 3 rfl rfl
  · exact ((send_single_worker_policy
      { proc := some 3, alive := true, rateLimitRetryCount := 2,
        apiErrorRetryCount := 1, lastUserMessage := "old" }
      { proc := none, alive := false } { aliveList := [3], nextPid := 4 }
      "hi" none false none).2.1 (by rfl)).1
  · exact ((send_single_worker_policy
      { proc := some 3, alive := true, rateLimitRetryCount := 2,
        apiErrorRetryCount := 1, lastUserMessage := "old" }
      { proc := none, alive := false } { aliveList := [], nextPid := 9 }
      "yo" none false none).2.2.2.2.1 rfl).1

/-! ## Streaming output aggregator (`src/proxy.ts`)

`flushChunkBuffer` (proxy.ts:377-432) drains the chunk buffer, groups the
entries (each text entry starts a new group, tool entries append to the group
being built), collapses consecutive identical tool lines inside a group into
one line with a repeat count, and sends each non-empty group — joined with
newlines and trimmed — as one messenger message, in buffer order.  Tool
entries are precisely the activity lines starting with the wrench marker
(proxy.ts:95-101). -/

/-- The chunk-buffer entry union (proxy.ts:27). -/
inductive BufferEntry where
  | text (content : String)
  | tool (content : String)
deriving DecidableEq

/-- One grouping step (proxy.ts:390-399); groups are accumulated with the
group currently being built at the head. -/
def groupStep (acc : List (List String)) (e : BufferEntry) : List (List String) :=
  match e with
  | .text c => [c] :: acc
  | .tool c =>
    match acc with
    | [] => [[c]]
    | g :: rest => (g ++ [c]) :: rest

/-- Groups of a drained buffer, in buffer order (proxy.ts:390-399). -/
def groupEntries (entries : List BufferEntry) : List (List String) :=
  (entries.foldl groupStep []).reverse

/-- Digit test for the repeat-count regex class `\d`. -/
def isDigitChar (c : Char) : Bool := '0' ≤ c && c ≤ '9'

/-- Numeric value of a digit sequence given least-significant first
(models `parseInt` on the matched count). -/
def natOfRevDigits : List Char → Nat
  | [] => 0
  | d :: ds => natOfRevDigits ds * 10 + (d.toNat - 48)

/-- Parses a trailing repeat annotation from a reversed character list.
Models the regex match `^(.+?)( \(x(\d+)\))?$` (proxy.ts:409): the string
decomposes as `base ++ " (x" ++ digits ++ ")"` with non-empty base and
digits exactly when the annotated alternative matches, and that
decomposition is unique, so scanning from the right is equivalent. -/
def parseRepeatRev : List Char → Option (List Char × Nat)
  | ')' :: rest =>
    match rest.takeWhile isDigitChar, rest.dropWhile isDigitChar with
    | [], _ => none
    | d :: ds, 'x' :: '(' :: ' ' :: b :: bs => some (b :: bs, natOfRevDigits (d :: ds))
    | _ :: _, _ => none
  | _ => none

/-- The base line and existing repeat count of a previously rendered line
(`prevMatch[1]` and `prevMatch[3]` of proxy.ts:409). -/
def stripRepeat (s : String) : String × Option Nat :=
  match parseRepeatRev s.data.reverse with
  | some (baseRev, n) => (String.mk baseRev.reverse, some n)
  | none => (s, none)

/-- Models `line.startsWith("🔧")` (proxy.ts:406) at code-point level. -/
def startsWithTool (s : String) : Bool :=
  match s.data with
  | c :: _ => c = '🔧'
  | [] => false

/-- One collapsing step (proxy.ts:405-417); the collapsed list is
accumulated in reverse, so the previously emitted line is at the head. -/
def collapseStep (collapsed : List String) (line : String) : List String :=
  match collapsed with
  | [] => [line]
  | prev :: rest =>
    if startsWithTool line then
      if (stripRepeat prev).1 = line then
        (line ++ " (x" ++
          toString (match (stripRepeat prev).2 with | some k => k + 1 | none => 2) ++ ")") :: rest
      else line :: prev :: rest
    else line :: prev :: rest

/-- Collapses consecutive identical tool lines within one group
(proxy.ts:403-420). -/
def collapseGroup (group : List String) : List String :=
  (group.foldl collapseStep []).reverse

/-- Bool form of message non-emptiness (`if (msg)` on the trimmed join,
proxy.ts:424-426). -/
def isNonEmptyMsg (m : String) : Bool := m ≠ ""

/-- Models a full flush (proxy.ts:387-427): group, collapse, join each group
with newlines, trim, and send each non-empty result, in buffer order. -/
def flushMessages (entries : List BufferEntry) : List String :=
  (((groupEntries entries).map collapseGroup).map
    (fun g => jsTrim (String.intercalate "\n" g))).filter isNonEmptyMsg

theorem stripRepeat_counted (t : String) (ht : t.data ≠ []) :
    stripRepeat (t ++ " (x" ++ toString 2 ++ ")") = (t, some 2) := by
  have h0 : (t ++ " (x" ++ toString 2 ++ ")").data =
      ((t.data ++ [' ', '(', 'x']) ++ ['2']) ++ [')'] := rfl
  cases hrev : t.data.reverse with
  | nil => exact absurd (List.reverse_eq_nil_iff.mp hrev) ht
  | cons b bs =>
    have h1 : (t ++ " (x" ++ toString 2 ++ ")").data.reverse =
        ')' :: '2' :: 'x' :: '(' :: ' ' :: (b :: bs) := by
      rw [h0, List.reverse_append, List.reverse_append, List.reverse_append, hrev]
      rfl
    unfold stripRepeat
    rw [h1]
    show (String.mk (b :: bs).reverse, some (natOfRevDigits ['2'])) = (t, some 2)
    have h2 : (b :: bs).reverse = t.data := by
      rw [← hrev, List.reverse_reverse]
    rw [h2]
    rfl

/-- C7: within a group, three identical tool-activity lines (a line starting
with the wrench marker and carrying no prior repeat annotation) collapse to
the single rendered line annotated `(x3)`, with the second occurrence
producing `(x2)` and the third incrementing the parsed count rather than
duplicating; and the buffer text "a", tool "🔧 X", text "b", tool "🔧 Y"
flushes as exactly the two messages "a\n🔧 X" then "b\n🔧 Y", in buffer
order. -/
theorem aggregator_collapse_and_grouping (t : String)
    (h1 : startsWithTool t = true) (h2 : stripRepeat t = (t, none)) :
    collapseGroup [t, t, t] = [t ++ " (x3)"] ∧
    flushMessages [BufferEntry.tool "🔧 X", BufferEntry.tool "🔧 X", BufferEntry.tool "🔧 X"] =
      ["🔧 X (x3)"] ∧
    flushMessages [BufferEntry.text "a", BufferEntry.tool "🔧 X",
                   BufferEntry.text "b", BufferEntry.tool "🔧 Y"] =
      ["a\n🔧 X", "b\n🔧 Y"] := by
  refine ⟨?_, by decide, by decide⟩
  have ht : t.data ≠ [] := by
    intro hd
    rw [startsWithTool, hd] at h1
    exact Bool.false_ne_true h1
  have hstep2 : collapseStep [t] t = [t ++ " (x" ++ toString 2 ++ ")"] := by
    rw [collapseStep, if_pos ?_, h2, if_pos rfl]
    exact h1
  have hstep3 : collapseStep [t ++ " (x" ++ toString 2 ++ ")"] t = [t ++ " (x" ++ toString 3 ++ ")"] := by
    rw [collapseStep, if_pos ?_, stripRepeat_counted t ht, if_pos rfl]
    exact h1
  have hfold : List.foldl collapseStep ([] : List String) [t, t, t] =
      [t ++ " (x" ++ toString 3 ++ ")"] := by
    show List.foldl collapseStep (collapseStep (collapseStep (collapseStep [] t) t) t) [] =
      [t ++ " (x" ++ toString 3 ++ ")"]
    rw [show collapseStep ([] : List String) t = [t] from rfl, hstep2, hstep3]
    rfl
  have hconv : t ++ " (x" ++ toString 3 ++ ")" = t ++ " (x3)" := by
    apply String.ext
    show ((t.data ++ [' ', '(', 'x']) ++ ['3']) ++ [')'] = t.data ++ [' ', '(', 'x', '3', ')']
    simp
  rw [collapseGroup, hfold, hconv]
  rfl

/-- Witness for `aggregator_collapse_and_grouping` at the concrete
tool-activity line "🔧 X". -/
theorem aggregator_collapse_and_grouping_witness :
    startsWithTool "🔧 X" = true ∧ stripRepeat "🔧 X" = ("🔧 X", none) ∧
    collapseGroup ["🔧 X", "🔧 X", "🔧 X"] = ["🔧 X (x3)"] :=
  ⟨by decide, by decide,
   (aggregator_collapse_and_grouping "🔧 X" (by decide) (by decide)).1⟩

/-! ## Archive retention (`src/context.ts`)

`cleanOldArchives` (context.ts:27-39), run from `load()` (context.ts:59),
deletes every file in the archive directory whose name matches
`^archive-(\d{4}-\d{2}-\d{2})\.jsonl$` and whose filename date parses to a
UTC midnight timestamp older than 30 days before now. -/

/-- Gregorian leap-year test. -/
def isLeapYear (y : Nat) : Bool := (y % 4 = 0 && y % 100 ≠ 0) || y % 400 = 0

/-- Days in a Gregorian month. -/
def daysInMonth (y m : Nat) : Nat :=
  if m = 2 then (if isLeapYear y then 29 else 28)
  else if m = 4 ∨ m = 6 ∨ m = 9 ∨ m = 11 then 30
  else 31

/-- Days from the Unix epoch to civil date y-m-d (valid for y ≥ 1, standard
civil-from-days algorithm; all divisions are on non-negative operands, where
Nat division coincides with the JS arithmetic). -/
def daysFromCivil (y m d : Nat) : Int :=
  let y1 := if m ≤ 2 then y - 1 else y
  let era := y1 / 400
  let yoe := y1 - era * 400
  let mp := if 2 < m then m - 3 else m + 9
  let doy := (153 * mp + 2) / 5 + d - 1
  let doe := yoe * 365 + yoe / 4 - yoe / 100 + doy
  ((era * 146097 + doe : Nat) : Int) - 719468

/-- Models `new Date(dateString + "T00:00:00Z").getTime()` (context.ts:33)
for a y-m-d triple: a calendar-invalid date yields an Invalid Date whose
time is NaN (every comparison with NaN is false), modelled as `none`. -/
def jsDateMillis (y m d : Nat) : Option Int :=
  if 1 ≤ m ∧ m ≤ 12 ∧ 1 ≤ d ∧ d ≤ daysInMonth y m then
    some (daysFromCivil y m d * 86400000)
  else none

/-- Numeric value of a digit character. -/
def digitVal (c : Char) : Nat := c.toNat - 48

/-- Models the filename match `^archive-(\d{4}-\d{2}-\d{2})\.jsonl$`
(context.ts:31), returning the year, month and day fields. -/
def archiveFileDate (name : String) : Option (Nat × Nat × Nat) :=
  match name.data with
  | 'a' :: 'r' :: 'c' :: 'h' :: 'i' :: 'v' :: 'e' :: '-' ::
    y1 :: y2 :: y3 :: y4 :: '-' :: m1 :: m2 :: '-' :: d1 :: d2 ::
    '.' :: 'j' :: 's' :: 'o' :: 'n' :: 'l' :: [] =>
    if isDigitChar y1 && isDigitChar y2 && isDigitChar y3 && isDigitChar y4 &&
       isDigitChar m1 && isDigitChar m2 && isDigitChar d1 && isDigitChar d2 then
      some (digitVal y1 * 1000 + digitVal y2 * 100 + digitVal y3 * 10 + digitVal y4,
            digitVal m1 * 10 + digitVal m2,
            digitVal d1 * 10 + digitVal d2)
    else none
  | _ => none

/-- Models the retention sweep of `cleanOldArchives` (context.ts:27-39):
returns the files it unlinks, given the current time in milliseconds. -/
def deletedArchives (nowMs : Int) (files : List String) : List String :=
  files.filter (fun f =>
    match archiveFileDate f with
    | none => false
    | some (y, m, d) =>
      match jsDateMillis y m d with
      | none => false
      | some fileDate => decide (fileDate < nowMs - 30 * 86400000))

/-- C9: during load(), every day-partitioned archive file whose filename date
is 31 days before the current time is deleted, every archive file whose
filename date is 29 days before the current time is retained, and files
whose names do not match the archive-YYYY-MM-DD.jsonl pattern are never
deleted by the retention sweep. -/
theorem archive_retention (now : Int) (files : List String) (name : String) (y m d : Nat) :
    (name ∈ files → archiveFileDate name = some (y, m, d) →
      jsDateMillis y m d = some (now - 31 * 86400000) →
      name ∈ deletedArchives now files) ∧
    (archiveFileDate name = some (y, m, d) →
      jsDateMillis y m d = some (now - 29 * 86400000) →
      name ∉ deletedArchives now files) ∧
    (archiveFileDate name = none → name ∉ deletedArchives now files) := by
  refine ⟨?_, ?_, ?_⟩
  · intro hmem hp hd
    refine List.mem_filter.mpr ⟨hmem, ?_⟩
    simp only [hp, hd, decide_eq_true_eq]
    omega
  · intro hp hd hmem
    have hpred := (List.mem_filter.mp hmem).2
    simp only [hp, hd, decide_eq_true_eq] at hpred
    omega
  · intro hp hmem
    have hpred := (List.mem_filter.mp hmem).2
    simp only [hp] at hpred
    exact Bool.false_ne_true hpred

/-- The current time used by the retention witness: 2026-10-11T00:00:00Z. -/
def retentionNow : Int := (jsDateMillis 2026 10 11).getD 0

/-- Witness for `archive_retention`: with now = 2026-10-11, the archive file
dated 2026-09-10 (31 days old) is deleted, the one dated 2026-09-12 (29 days
old) is retained, and a non-matching filename is untouched. -/
theorem archive_retention_witness :
    "archive-2026-09-10.jsonl" ∈ deletedArchives retentionNow
      ["archive-2026-09-10.jsonl", "archive-2026-09-12.jsonl", "notes.txt"] ∧
    "archive-2026-09-12.jsonl" ∉ deletedArchives retentionNow
      ["archive-2026-09-10.jsonl", "archive-2026-09-12.jsonl", "notes.txt"] ∧
    "notes.txt" ∉ deletedArchives retentionNow
      ["archive-2026-09-10.jsonl", "archive-2026-09-12.jsonl", "notes.txt"] := by
  refine ⟨?_, ?_, ?_⟩
  · exact (archive_retention retentionNow _ _ 2026 9 10).1 (by decide) (by decide) (by decide)
  · exact (archive_retention retentionNow _ _ 2026 9 12).2.1 (by decide) (by decide)
  · exact (archive_retention retentionNow _ _ 0 0 0).2.2 (by decide)

/-! ## Session message listener (`src/session.ts`)

The `session.on("message", ...)` handler installed by `startListening`
(session.ts:258-292) forwards an inbound message to `onMessage` only when its
sender is the configured user, its timestamp is present (JS-truthy) and not
before the listener's start time, and the timestamp has not been seen
before; accepted timestamps are recorded for deduplication.  The handler is
modelled as a fold over the inbound stream. -/

/-- An inbound messenger event (`message.from`, `message.timestamp`,
`message.text`, `message.attachments`). -/
structure InMsg where
  sender : String
  timestamp : Option Int
  text : String
  attachmentCount : Nat
deriving DecidableEq

/-- Listener state: the start time captured at `startListening` and the set
of seen sender timestamps. -/
structure ListenerState where
  startedAt : Int
  seen : List Int
deriving DecidableEq

/-- Models one execution of the message handler (session.ts:258-292).
`if (!ts) return` treats a zero timestamp as missing (JS falsiness); the
timestamp is recorded before the text/attachment check, and the message is
forwarded only when it has text or attachments. -/
def listenStep (userId : String) (st : ListenerState) (m : InMsg) :
    ListenerState × Option InMsg :=
  if m.sender ≠ userId then (st, none)
  else
    match m.timestamp with
    | none => (st, none)
    | some ts =>
      if ts = 0 then (st, none)
      else if ts < st.startedAt then (st, none)
      else if ts ∈ st.seen then (st, none)
      else if m.text ≠ "" ∨ 0 < m.attachmentCount then
        ({ st with seen := ts :: st.seen }, some m)
      else ({ st with seen := ts :: st.seen }, none)

/-- The sequence of messages forwarded to `onMessage` over an inbound
stream. -/
def listenRun (userId : String) (st : ListenerState) (msgs : List InMsg) : List InMsg :=
  match msgs with
  | [] => []
  | m :: rest =>
    match listenStep userId st m with
    | (st1, some fm) => fm :: listenRun userId st1 rest
    | (st1, none) => listenRun userId st1 rest

theorem listenRun_forwarded_gated (userId : String) (st : ListenerState)
    (msgs : List InMsg) :
    ∀ fm ∈ listenRun userId st msgs, fm.sender = userId ∧
      ∃ ts, fm.timestamp = some ts ∧ st.startedAt ≤ ts ∧ ts ≠ 0 := by
  induction msgs generalizing st with
  | nil => intro fm h; cases h
  | cons m rest ih =>
    intro fm hfm
    by_cases hs : m.sender = userId
    · cases hts : m.timestamp with
      | none =>
        simp only [listenRun, listenStep, if_neg (show ¬ m.sender ≠ userId from fun hc => hc hs),
          hts] at hfm
        exact ih st fm hfm
      | some ts =>
        by_cases h0 : ts = 0
        · simp only [listenRun, listenStep, if_neg (show ¬ m.sender ≠ userId from fun hc => hc hs),
            hts, if_pos h0] at hfm
          exact ih st fm hfm
        · by_cases hlt : ts < st.startedAt
          · simp only [listenRun, listenStep,
              if_neg (show ¬ m.sender ≠ userId from fun hc => hc hs),
              hts, if_neg h0, if_pos hlt] at hfm
            exact ih st fm hfm
          · by_cases hseen : ts ∈ st.seen
            · simp only [listenRun, listenStep,
                if_neg (show ¬ m.sender ≠ userId from fun hc => hc hs),
                hts, if_neg h0, if_neg hlt, if_pos hseen] at hfm
              exact ih st fm hfm
            · by_cases hbody : m.text ≠ "" ∨ 0 < m.attachmentCount
              · simp only [listenRun, listenStep,
                  if_neg (show ¬ m.sender ≠ userId from fun hc => hc hs),
                  hts, if_neg h0, if_neg hlt, if_neg hseen, if_pos hbody] at hfm
                rcases List.mem_cons.mp hfm with rfl | hrest
                · exact ⟨hs, ts, hts, by omega, h0⟩
                · exact ih { st with seen := ts :: st.seen } fm hrest
              · simp only [listenRun, listenStep,
                  if_neg (show ¬ m.sender ≠ userId from fun hc => hc hs),
                  hts, if_neg h0, if_neg hlt, if_neg hseen, if_neg hbody] at hfm
                exact ih { st with seen := ts :: st.seen } fm hfm
    · simp only [listenRun, listenStep, if_pos (show m.sender ≠ userId from hs)] at hfm
      exact ih st fm hfm

theorem listenRun_timestamps_nodup (userId : String) (st : ListenerState)
    (msgs : List InMsg) :
    ((listenRun userId st msgs).map InMsg.timestamp).Nodup ∧
    (∀ fm ∈ listenRun userId st msgs, ∀ ts, fm.timestamp = some ts → ts ∉ st.seen) := by
  induction msgs generalizing st with
  | nil => exact ⟨List.nodup_nil, fun fm h => absurd h (List.not_mem_nil fm)⟩
  | cons m rest ih =>
    by_cases hs : m.sender = userId
    · cases hts : m.timestamp with
      | none =>
        simp only [listenRun, listenStep, if_neg (show ¬ m.sender ≠ userId from fun hc => hc hs),
          hts]
        exact ih st
      | some ts =>
        by_cases h0 : ts = 0
        · simp only [listenRun, listenStep, if_neg (show ¬ m.sender ≠ userId from fun hc => hc hs),
            hts, if_pos h0]
          exact ih st
        · by_cases hlt : ts < st.startedAt
          · simp only [listenRun, listenStep,
              if_neg (show ¬ m.sender ≠ userId from fun hc => hc hs),
              hts, if_neg h0, if_pos hlt]
            exact ih st
          · by_cases hseen : ts ∈ st.seen
            · simp only [listenRun, listenStep,
                if_neg (show ¬ m.sender ≠ userId from fun hc => hc hs),
                hts, if_neg h0, if_neg hlt, if_pos hseen]
              exact ih st
            · by_cases hbody : m.text ≠ "" ∨ 0 < m.attachmentCount
              · simp only [listenRun, listenStep,
                  if_neg (show ¬ m.sender ≠ userId from fun hc => hc hs),
                  hts, if_neg h0, if_neg hlt, if_neg hseen, if_pos hbody, List.map_cons]
                constructor
                · refine List.nodup_cons.mpr ⟨?_, (ih { st with seen := ts :: st.seen }).1⟩
                  intro hmem
                  obtain ⟨fm, hfm, hts'⟩ := List.mem_map.mp hmem
                  have := (ih { st with seen := ts :: st.seen }).2 fm hfm ts hts'
                  exact this (List.mem_cons_self ts st.seen)
                · intro fm hfm ts' hts'
                  rcases List.mem_cons.mp hfm with rfl | hrest
                  · have : ts' = ts := by
                      rw [hts] at hts'
                      exact (Option.some_inj.mp hts').symm
                    rw [this]
                    exact hseen
                  · intro hmem
                    exact (ih { st with seen := ts :: st.seen }).2 fm hrest ts' hts'
                      (List.mem_cons_of_mem ts hmem)
              · simp only [listenRun, listenStep,
                  if_neg (show ¬ m.sender ≠ userId from fun hc => hc hs),
                  hts, if_neg h0, if_neg hlt, if_neg hseen, if_neg hbody]
                refine ⟨(ih { st with seen := ts :: st.seen }).1, ?_⟩
                intro fm hfm ts' hts' hmem
                exact (ih { st with seen := ts :: st.seen }).2 fm hfm ts' hts'
                  (List.mem_cons_of_mem ts hmem)
    · simp only [listenRun, listenStep, if_pos (show m.sender ≠ userId from hs)]
      exact ih st

theorem listenRun_ignores_foreign (userId : String) (st : ListenerState)
    (msgs : List InMsg) :
    listenRun userId st msgs =
      listenRun userId st (msgs.filter (fun m => m.sender == userId)) := by
  induction msgs generalizing st with
  | nil => rfl
  | cons m rest ih =>
    by_cases hs : m.sender = userId
    · have hf : (m :: rest).filter (fun m => m.sender == userId) =
          m :: rest.filter (fun m => m.sender == userId) := by
        simp [List.filter_cons, hs]
      rw [hf]
      simp only [listenRun]
      cases hstep : listenStep userId st m with
      | mk st1 out =>
        cases out with
        | none => exact ih st1
        | some fm => exact congrArg (fm :: ·) (ih st1)
    · have hstep : listenStep userId st m = (st, none) := by
        rw [listenStep, if_pos (show m.sender ≠ userId from hs)]
      have hf : (m :: rest).filter (fun m => m.sender == userId) =
          rest.filter (fun m => m.sender == userId) := by
        simp [List.filter_cons, hs]
      rw [hf]
      conv_lhs => rw [listenRun]
      rw [hstep]
      exact ih st

/-- C10: the message listener forwards only inbound messages whose sender is
the configured user Session ID, whose timestamp is present and not earlier
than the listener's start time, and whose timestamp has not been seen
before; the forwarded timestamps are pairwise distinct (each forwarded at
most once); and two inbound streams differing only in messages from other
senders produce identical forwarded sequences. -/
theorem listener_only_forwards_gated (userId : String) (st : ListenerState)
    (msgs msgs2 : List InMsg) :
    (∀ fm ∈ listenRun userId st msgs, fm.sender = userId ∧
      ∃ ts, fm.timestamp = some ts ∧ st.startedAt ≤ ts ∧ ts ∉ st.seen) ∧
    ((listenRun userId st msgs).map InMsg.timestamp).Nodup ∧
    (msgs.filter (fun m => m.sender == userId) =
        msgs2.filter (fun m => m.sender == userId) →
      listenRun userId st msgs = listenRun userId st msgs2) := by
  refine ⟨?_, (listenRun_timestamps_nodup userId st msgs).1, ?_⟩
  · intro fm hfm
    obtain ⟨h1, ts, h2, h3, _⟩ := listenRun_forwarded_gated userId st msgs fm hfm
    exact ⟨h1, ts, h2, h3, (listenRun_timestamps_nodup userId st msgs).2 fm hfm ts h2⟩
  · intro h
    rw [listenRun_ignores_foreign userId st msgs, listenRun_ignores_foreign userId st msgs2, h]

/-- Witness for `listener_only_forwards_gated` on a concrete stream mixing a
foreign sender, a duplicate timestamp, a stale timestamp and a missing
timestamp, against a second stream differing only in foreign messages. -/
theorem listener_only_forwards_gated_witness :
    (∀ fm ∈ listenRun "u" ⟨100, []⟩
        [⟨"x", some 150, "evil", 0⟩, ⟨"u", some 150, "hello", 0⟩,
         ⟨"u", some 150, "dup", 0⟩, ⟨"u", some 50, "old", 0⟩, ⟨"u", none, "n", 0⟩],
      fm.sender = "u" ∧ ∃ ts, fm.timestamp = some ts ∧ (100 : Int) ≤ ts ∧ ts ∉ ([] : List Int)) ∧
    listenRun "u" ⟨100, []⟩
        [⟨"x", some 150, "evil", 0⟩, ⟨"u", some 150, "hello", 0⟩,
         ⟨"u", some 150, "dup", 0⟩, ⟨"u", some 50, "old", 0⟩, ⟨"u", none, "n", 0⟩] =
      listenRun "u" ⟨100, []⟩
        [⟨"u", some 150, "hello", 0⟩, ⟨"y", some 7, "spam", 0⟩,
         ⟨"u", some 150, "dup", 0⟩, ⟨"u", some 50, "old", 0⟩, ⟨"u", none, "n", 0⟩] := by
  refine ⟨?_, ?_⟩
  · exact (listener_only_forwards_gated "u" ⟨100, []⟩
      [⟨"x", some 150, "evil", 0⟩, ⟨"u", some 150, "hello", 0⟩,
       ⟨"u", some 150, "dup", 0⟩, ⟨"u", some 50, "old", 0⟩, ⟨"u", none, "n", 0⟩]
      [⟨"u", some 150, "hello", 0⟩, ⟨"y", some 7, "spam", 0⟩,
       ⟨"u", some 150, "dup", 0⟩, ⟨"u", some 50, "old", 0⟩, ⟨"u", none, "n", 0⟩]).1
  · exact (listener_only_forwards_gated "u" ⟨100, []⟩
      [⟨"x", some 150, "evil", 0⟩, ⟨"u", some 150, "hello", 0⟩,
       ⟨"u", some 150, "dup", 0⟩, ⟨"u", some 50, "old", 0⟩, ⟨"u", none, "n", 0⟩]
      [⟨"u", some 150, "hello", 0⟩, ⟨"y", some 7, "spam", 0⟩,
       ⟨"u", some 150, "dup", 0⟩, ⟨"u", some 50, "old", 0⟩, ⟨"u", none, "n", 0⟩]).2.2
      (by decide)

end Snoot
